import Mathlib

/-!
Shallow embedding of the project-catalog logic of the syncable-project-dashboard
extension (`src/configManager.ts` together with the two revisions of the dashboard
component).  JavaScript objects are modelled as insertion-ordered association
lists, JSON values as an inductive type, the filesystem as explicit tree data,
and every fallible operation returns `Except`.
-/

set_option maxHeartbeats 1000000

/-- JSON values as produced by `JSON.parse`.  Numbers are modelled as integers,
which covers every value the catalog stores (timestamps and color strings). -/
inductive Json where
  | null : Json
  | bool (b : Bool) : Json
  | num (n : Int) : Json
  | str (s : String) : Json
  | arr (elems : List Json) : Json
  | obj (fields : List (String × Json)) : Json

/-- JavaScript truthiness of a JSON value: `null`, `false`, `0` and `""` are
falsy, every array and object is truthy. -/
def Json.truthy : Json → Bool
  | .null => false
  | .bool b => b
  | .num n => n != 0
  | .str s => s != ""
  | .arr _ => true
  | .obj _ => true

/-- JavaScript property access `v[k]`: `none` models `undefined` (missing key
or access on a non-object value, which does not throw). -/
def Json.getField : Json → String → Option Json
  | .obj fields, k => (fields.find? (fun p => p.1 == k)).map Prod.snd
  | _, _ => none

/-- Value reached by following a key path through nested objects, ignoring
truthiness.  This is the spec-side notion of a key path being "present". -/
def jsonPath (v : Json) : List String → Option Json
  | [] => some v
  | k :: rest =>
    match v.getField k with
    | some w => jsonPath w rest
    | none => none

/-- Truthiness-guarded path traversal, the value of the JavaScript expression
`v && v.k1 && v.k1.k2 && ...`: each node on the path, the final value
included, must be truthy. -/
def truthyPath (v : Json) : List String → Option Json
  | [] => if v.truthy then some v else none
  | k :: rest =>
    if v.truthy then
      match v.getField k with
      | some w => truthyPath w rest
      | none => none
    else none

/-- Boolean version of `truthyPath` succeeding: every node along the path is
truthy and the path exists. -/
def pathTruthy (v : Json) : List String → Bool
  | [] => v.truthy
  | k :: rest =>
    v.truthy &&
      (match v.getField k with
       | some w => pathTruthy w rest
       | none => false)

/-- Key path of the nested settings form
`workbench.colorCustomizations["activityBar.background"]`. -/
def nestedColorPath : List String := ["workbench", "colorCustomizations", "activityBar.background"]

/-- Key path of the flat settings form
`settings["workbench.colorCustomizations"]["activityBar.background"]`. -/
def flatColorPath : List String := ["workbench.colorCustomizations", "activityBar.background"]

/-- Content of a project's `.vscode/settings.json`: `none` when the file is
missing, `some none` when it exists but `JSON.parse` throws, `some (some j)`
when it parses to `j`. -/
abbrev SettingsFile := Option (Option Json)

/-- Embedding of `ConfigManager.getProjectColor` (configManager.ts lines
79-108): the nested form is tried first, then the flat form; the `try` block
swallows a missing file and malformed JSON. -/
def getProjectColor (file : SettingsFile) : Option Json :=
  match file with
  | none => none
  | some none => none
  | some (some settings) =>
    match truthyPath settings nestedColorPath with
    | some v => some v
    | none =>
      match truthyPath settings flatColorPath with
      | some v => some v
      | none => none

/-- Mirror of the `ProjectInfo` interface: a project's folder name and the
value `getProjectColor` returned for it (`undefined` modelled as `none`). -/
structure ProjectInfo where
  name : String
  color : Option Json

/-- Mirror of the `ProjectConfig` interface, the whole persisted catalog.
JavaScript objects are insertion-ordered association lists. -/
structure ProjectConfig where
  baseProjectsFolder : Option String := none
  projectsData : Option (List (String × List ProjectInfo)) := none
  lastScanTime : Option Nat := none
  groupStates : Option (List (String × Bool)) := none

/-- JavaScript object read `m[k]`: the entry of the first matching key. -/
def objGet (m : List (String × α)) (k : String) : Option α :=
  (m.find? (fun p => p.1 == k)).map Prod.snd

/-- JavaScript object write `m[k] = v`: an existing key keeps its position and
gets the new value, a new key is appended at the end. -/
def objSet (m : List (String × α)) (k : String) (v : α) : List (String × α) :=
  if m.any (fun p => p.1 == k) then
    m.map (fun p => if p.1 == k then (k, v) else p)
  else
    m ++ [(k, v)]

/-- One entry of a group folder as seen by `readdirSync`: its name, whether it
is a directory, and (for project folders) its settings file. -/
structure ProjEntry where
  name : String
  isDir : Bool
  settings : SettingsFile

/-- One entry of the base folder: a first-level name, whether it is a
directory, and its own entries. -/
structure GroupEntry where
  name : String
  isDir : Bool
  children : List ProjEntry

/-- Directory tree rooted at the base projects folder. -/
structure BaseDir where
  children : List GroupEntry

/-- Project list scanned from one group folder: its directory entries with
their extracted colors, in enumeration order (configManager.ts lines 135-149,
duplicated in the dashboard's refreshGroup). -/
def listProjects (g : GroupEntry) : List ProjectInfo :=
  (g.children.filter (fun e => e.isDir)).map
    (fun e => { name := e.name, color := getProjectColor e.settings })

/-- Embedding of `ConfigManager.scanProjects` (configManager.ts lines
113-160).  `disk` is the tree rooted at the configured base folder, `none`
when that path does not exist; `now` is `Date.now()`.  The `b = ""` test
mirrors the JavaScript truthiness check `!config.baseProjectsFolder`. -/
def scanProjects (cfg : ProjectConfig) (disk : Option BaseDir) (now : Nat) :
    Except String ProjectConfig :=
  match cfg.baseProjectsFolder with
  | none => .error "Base projects folder not set"
  | some b =>
    if b = "" then .error "Base projects folder not set"
    else
      match disk with
      | none => .error ("Base projects folder does not exist: " ++ b)
      | some d =>
        let pd := (d.children.filter (fun e => e.isDir)).foldl
          (fun acc g => objSet acc g.name (listProjects g)) []
        .ok { cfg with projectsData := some pd, lastScanTime := some now }

/-- Entries of the filesystem outside the base-folder tree, for
`setBaseProjectsFolder`: a path together with whether it is a directory. -/
abbrev FsEntries := List (String × Bool)

/-- Embedding of `fs.existsSync`: the path is present, directory or not. -/
def existsSync (fs : FsEntries) (p : String) : Bool :=
  ((fs.find? (fun e => e.1 == p)).map Prod.snd).isSome

/-- Whether a path exists and is a directory, the spec-side validation
`setBaseFolder` promises. -/
def isDirOn (fs : FsEntries) (p : String) : Bool :=
  match fs.find? (fun e => e.1 == p) with
  | some e => e.2
  | none => false

/-- Embedding of `ConfigManager.setBaseProjectsFolder` (configManager.ts lines
46-74).  A missing or empty argument (JavaScript `!folderPath`) defers to the
folder-picker dialog, whose outcome is the `dialogPick` parameter; a cancelled
dialog returns `undefined` (modelled as `.ok (cfg, none)`) without persisting.
The chosen path is then checked with `existsSync` only. -/
def setBaseProjectsFolder (provided : Option String) (dialogPick : Option String)
    (fs : FsEntries) (cfg : ProjectConfig) : Except String (ProjectConfig × Option String) :=
  let chosen : Option String :=
    match provided with
    | some p => if p = "" then dialogPick else some p
    | none => dialogPick
  match chosen with
  | none => .ok (cfg, none)
  | some p =>
    if existsSync fs p then
      .ok ({ cfg with baseProjectsFolder := some p }, some p)
    else
      .error ("Folder does not exist: " ++ p)

/-- Embedding of `ProjectDashboard.refreshGroup` (part_002 lines 148-190).
`existsSync` on the group path finds the entry by name; `readdirSync` then
throws when the entry is not a directory. -/
def refreshGroup (cfg : ProjectConfig) (disk : Option BaseDir) (groupName : String) :
    Except String ProjectConfig :=
  match cfg.baseProjectsFolder with
  | none => .error "Base projects folder not set"
  | some b =>
    if b = "" then .error "Base projects folder not set"
    else
      match disk with
      | none => .error ("Group folder does not exist: " ++ groupName)
      | some d =>
        match d.children.find? (fun g => g.name == groupName) with
        | none => .error ("Group folder does not exist: " ++ groupName)
        | some g =>
          if g.isDir then
            .ok { cfg with
              projectsData := some (objSet (cfg.projectsData.getD []) groupName (listProjects g)) }
          else
            .error "ENOTDIR: not a directory, scandir"

/-- Embedding of the object `ProjectDashboard.handleExportConfig` serializes
(part_002 lines 1010-1015): exactly the four persisted fields. -/
def exportConfig (cfg : ProjectConfig) : ProjectConfig :=
  { baseProjectsFolder := cfg.baseProjectsFolder
    projectsData := cfg.projectsData
    groupStates := cfg.groupStates
    lastScanTime := cfg.lastScanTime }

/-- Embedding of the validation and persistence part of
`ProjectDashboard.handleImportConfig` (part_002 lines 1052-1093).  The
payload is the parsed JSON object; the `b = ""` test mirrors the JavaScript
truthiness check `!importedConfig.baseProjectsFolder`.  When the imported
base folder is missing on disk the code interactively asks for a substitute
base folder; that interaction is abstracted by the `substitute` parameter
(`none` when the user declines or picks nothing, in which case the handler
throws). -/
def handleImportConfig (payload : ProjectConfig) (fs : FsEntries)
    (substitute : Option String) : Except String ProjectConfig :=
  match payload.baseProjectsFolder, payload.projectsData with
  | some b, some _ =>
    if b = "" then .error "Invalid configuration file"
    else if existsSync fs b then .ok payload
    else
      match substitute with
      | some nb => .ok { payload with baseProjectsFolder := some nb }
      | none => .error "Base folder does not exist"
  | _, _ => .error "Invalid configuration file"

/-- Persisted catalog after an import attempt: the handler only calls
`saveConfig` on its success path, so a thrown error leaves the stored
catalog as it was. -/
def persistAfterImport (payload : ProjectConfig) (fs : FsEntries)
    (substitute : Option String) (cfg : ProjectConfig) : ProjectConfig :=
  match handleImportConfig payload fs substitute with
  | .ok c => c
  | .error _ => cfg

/-- Three-way comparison of naturals. -/
def cmpNat (m n : Nat) : Ordering :=
  if m < n then .lt else if n < m then .gt else .eq

/-- Lexicographic three-way comparison of character lists. -/
def cmpCharList : List Char → List Char → Ordering
  | [], [] => .eq
  | [], _ :: _ => .lt
  | _ :: _, [] => .gt
  | a :: as, b :: bs =>
    match cmpNat a.toNat b.toNat with
    | .eq => cmpCharList as bs
    | o => o

/-- Embedding of `String.prototype.localeCompare` and of the default string
comparator of `Array.prototype.sort`, as lexicographic comparison. -/
def cmpStr (a b : String) : Ordering :=
  cmpCharList a.data b.data

/-- Result of `Array.prototype.sort(cmp)`: a stable sort placing `a` no later
than `b` whenever `cmp a b` is not positive. -/
def jsSort (cmp : α → α → Ordering) (l : List α) : List α :=
  l.insertionSort (fun a b => cmp a b ≠ .gt)

/-- Whether `needle` occurs as a contiguous subsequence of the second list. -/
def hasSubSeq (needle : List Char) : List Char → Bool
  | [] => needle.isEmpty
  | c :: t => needle.isPrefixOf (c :: t) || hasSubSeq needle t

/-- Embedding of `String.prototype.includes`. -/
def jsIncludes (s sub : String) : Bool :=
  hasSubSeq sub.data s.data

/-- Comparator of the `name-asc` criterion:
`(a, b) => a.name.localeCompare(b.name)`. -/
def cmpNameAsc (a b : ProjectInfo) : Ordering :=
  cmpStr a.name b.name

/-- Comparator of the `name-desc` criterion:
`(a, b) => b.name.localeCompare(a.name)`. -/
def cmpNameDesc (a b : ProjectInfo) : Ordering :=
  cmpStr b.name a.name

/-- Truthiness of a stored color value, for the legacy `color` comparator. -/
def colorTruthy : Option Json → Bool
  | none => false
  | some v => v.truthy

/-- Comparator of the legacy `color` criterion (configManager.ts lines
366-373 of the embedded first-revision dashboard): colored projects first,
ties broken by name. -/
def cmpColor (a b : ProjectInfo) : Ordering :=
  if colorTruthy a.color && !colorTruthy b.color then .lt
  else if !colorTruthy a.color && colorTruthy b.color then .gt
  else cmpStr a.name b.name

/-- Rebuilt object whose keys are listed by `ks` with the values they have in
`m`, mirroring the loop `sortedProjectsData[groupName] =
config.projectsData[groupName]` over `sortedGroups`. -/
def rebuildByKeys (m : List (String × α)) (ks : List String) : List (String × α) :=
  ks.filterMap (fun k => (objGet m k).map (fun v => (k, v)))

/-- Embedding of `ProjectDashboard.sortProjects` of the current dashboard
(part_002 lines 195-247): criteria containing `"group"` reorder the keys,
`name-asc` and `name-desc` sort each group's projects, anything else leaves
the data unchanged. -/
def sortProjects (sortBy : String) (cfg : ProjectConfig) : ProjectConfig :=
  match cfg.projectsData with
  | none => cfg
  | some m =>
    if jsIncludes sortBy "group" then
      let sortedKeys := jsSort cmpStr (m.map Prod.fst)
      let sortedKeys := if sortBy = "group-desc" then sortedKeys.reverse else sortedKeys
      { cfg with projectsData := some (rebuildByKeys m sortedKeys) }
    else
      { cfg with projectsData := some (m.map (fun p =>
          (p.1,
            if sortBy = "name-asc" then jsSort cmpNameAsc p.2
            else if sortBy = "name-desc" then jsSort cmpNameDesc p.2
            else p.2))) }

/-- Embedding of the first-revision `ProjectDashboard.sortProjects` (the
dashboard embedded in configManager.ts lines 345-385): no group criteria,
but a `color` case. -/
def sortProjectsV1 (sortBy : String) (cfg : ProjectConfig) : ProjectConfig :=
  match cfg.projectsData with
  | none => cfg
  | some m =>
    { cfg with projectsData := some (m.map (fun p =>
        (p.1,
          if sortBy = "name-asc" then jsSort cmpNameAsc p.2
          else if sortBy = "name-desc" then jsSort cmpNameDesc p.2
          else if sortBy = "color" then jsSort cmpColor p.2
          else p.2))) }

/-! ### Order-theoretic facts about the embedded comparators -/

theorem cmpNat_eq_lt {m n : Nat} : cmpNat m n = .lt ↔ m < n := by
  unfold cmpNat; split_ifs <;> simp_all <;> omega

theorem cmpNat_eq_gt {m n : Nat} : cmpNat m n = .gt ↔ n < m := by
  unfold cmpNat; split_ifs <;> simp_all <;> omega

theorem cmpNat_eq_eq {m n : Nat} : cmpNat m n = .eq ↔ m = n := by
  unfold cmpNat; split_ifs <;> simp_all <;> omega

theorem char_eq_of_toNat_eq {a b : Char} (h : a.toNat = b.toNat) : a = b :=
  Char.ext (UInt32.ext h)

theorem cmpCharList_swap : ∀ (a b : List Char), cmpCharList b a = (cmpCharList a b).swap
  | [], [] => rfl
  | [], _ :: _ => rfl
  | _ :: _, [] => rfl
  | x :: as, y :: bs => by
    simp only [cmpCharList]
    rcases hxy : cmpNat x.toNat y.toNat with _ | _ | _
    · have hyx : cmpNat y.toNat x.toNat = .gt := cmpNat_eq_gt.mpr (cmpNat_eq_lt.mp hxy)
      rw [hyx]; rfl
    · have hyx : cmpNat y.toNat x.toNat = .eq := cmpNat_eq_eq.mpr (cmpNat_eq_eq.mp hxy).symm
      rw [hyx]
      exact cmpCharList_swap as bs
    · have hyx : cmpNat y.toNat x.toNat = .lt := cmpNat_eq_lt.mpr (cmpNat_eq_gt.mp hxy)
      rw [hyx]; rfl

theorem cmpCharList_eq_eq : ∀ (a b : List Char), cmpCharList a b = .eq ↔ a = b
  | [], [] => by simp [cmpCharList]
  | [], _ :: _ => by simp [cmpCharList]
  | _ :: _, [] => by simp [cmpCharList]
  | x :: as, y :: bs => by
    simp only [cmpCharList]
    rcases hxy : cmpNat x.toNat y.toNat with _ | _ | _
    · have hne : x ≠ y := fun he => by
        rw [he, cmpNat_eq_eq.mpr rfl] at hxy; cases hxy
      simp [hne]
    · have hx : x = y := char_eq_of_toNat_eq (cmpNat_eq_eq.mp hxy)
      simp [hx, cmpCharList_eq_eq as bs]
    · have hne : x ≠ y := fun he => by
        rw [he, cmpNat_eq_eq.mpr rfl] at hxy; cases hxy
      simp [hne]

theorem cmpCharList_ne_gt_trans : ∀ (a b c : List Char),
    cmpCharList a b ≠ .gt → cmpCharList b c ≠ .gt → cmpCharList a c ≠ .gt
  | [], _, c, _, _ => by cases c <;> simp [cmpCharList]
  | _ :: _, [], _, h1, _ => by simp [cmpCharList] at h1
  | _ :: _, _ :: _, [], _, h2 => by simp [cmpCharList] at h2
  | x :: as, y :: bs, z :: cs, h1, h2 => by
    simp only [cmpCharList] at h1 h2 ⊢
    rcases hxy : cmpNat x.toNat y.toNat with _ | _ | _ <;> rw [hxy] at h1 <;>
      rcases hyz : cmpNat y.toNat z.toNat with _ | _ | _ <;> rw [hyz] at h2
    · have l1 := cmpNat_eq_lt.mp hxy
      have l2 := cmpNat_eq_lt.mp hyz
      rw [cmpNat_eq_lt.mpr (by omega : x.toNat < z.toNat)]; simp
    · have l1 := cmpNat_eq_lt.mp hxy
      have l2 := cmpNat_eq_eq.mp hyz
      rw [cmpNat_eq_lt.mpr (by omega : x.toNat < z.toNat)]; simp
    · exact absurd rfl h2
    · have l1 := cmpNat_eq_eq.mp hxy
      have l2 := cmpNat_eq_lt.mp hyz
      rw [cmpNat_eq_lt.mpr (by omega : x.toNat < z.toNat)]; simp
    · have l1 := cmpNat_eq_eq.mp hxy
      have l2 := cmpNat_eq_eq.mp hyz
      rw [cmpNat_eq_eq.mpr (by omega : x.toNat = z.toNat)]
      exact cmpCharList_ne_gt_trans as bs cs h1 h2
    · exact absurd rfl h2
    · exact absurd rfl h1
    · exact absurd rfl h1
    · exact absurd rfl h1

theorem cmpCharList_ne_gt_total (a b : List Char) :
    cmpCharList a b ≠ .gt ∨ cmpCharList b a ≠ .gt := by
  by_cases h : cmpCharList a b = .gt
  · right; rw [cmpCharList_swap a b, h]; decide
  · left; exact h

theorem string_eq_of_data_eq {a b : String} (h : a.data = b.data) : a = b := by
  cases a; cases b; simp only at h; rw [h]

theorem cmpStr_eq_eq {a b : String} : cmpStr a b = .eq ↔ a = b := by
  unfold cmpStr
  rw [cmpCharList_eq_eq]
  exact ⟨string_eq_of_data_eq, fun h => by rw [h]⟩

theorem cmpStr_swap (a b : String) : cmpStr b a = (cmpStr a b).swap :=
  cmpCharList_swap a.data b.data

theorem cmpStr_ne_gt_trans (a b c : String) :
    cmpStr a b ≠ .gt → cmpStr b c ≠ .gt → cmpStr a c ≠ .gt :=
  cmpCharList_ne_gt_trans a.data b.data c.data

theorem cmpStr_ne_gt_total (a b : String) : cmpStr a b ≠ .gt ∨ cmpStr b a ≠ .gt :=
  cmpCharList_ne_gt_total a.data b.data

theorem cmpStr_gt_of_ne_gt_of_ne {a b : String} (h : cmpStr a b ≠ .gt) (hne : a ≠ b) :
    cmpStr b a = .gt := by
  rcases hba : cmpStr b a with _ | _ | _
  · exact absurd (by rw [cmpStr_swap b a, hba]; rfl) h
  · exact absurd (cmpStr_eq_eq.mp hba).symm hne
  · rfl

/-! ### Generic facts about the stable-sort embedding -/

theorem jsSort_perm (cmp : α → α → Ordering) (l : List α) : List.Perm (jsSort cmp l) l :=
  List.perm_insertionSort (fun a b => cmp a b ≠ .gt) l

theorem jsSort_sorted (cmp : α → α → Ordering)
    (htot : ∀ a b, cmp a b ≠ .gt ∨ cmp b a ≠ .gt)
    (htr : ∀ a b c, cmp a b ≠ .gt → cmp b c ≠ .gt → cmp a c ≠ .gt) (l : List α) :
    List.Sorted (fun a b => cmp a b ≠ .gt) (jsSort cmp l) := by
  haveI : IsTotal α (fun a b => cmp a b ≠ .gt) := ⟨htot⟩
  haveI : IsTrans α (fun a b => cmp a b ≠ .gt) := ⟨htr⟩
  exact List.sorted_insertionSort _ l

theorem jsSort_idem (cmp : α → α → Ordering)
    (htot : ∀ a b, cmp a b ≠ .gt ∨ cmp b a ≠ .gt)
    (htr : ∀ a b c, cmp a b ≠ .gt → cmp b c ≠ .gt → cmp a c ≠ .gt) (l : List α) :
    jsSort cmp (jsSort cmp l) = jsSort cmp l :=
  (jsSort_sorted cmp htot htr l).insertionSort_eq

theorem orderedInsert_append_last {r : α → α → Prop} [DecidableRel r] (a : α) :
    ∀ (l : List α), (∀ x ∈ l, ¬ r a x) → l.orderedInsert r a = l ++ [a]
  | [], _ => rfl
  | b :: t, h => by
    rw [List.orderedInsert, if_neg (h b (List.mem_cons_self b t)),
      orderedInsert_append_last a t (fun x hx => h x (List.mem_cons_of_mem b hx))]
    rfl

theorem insertionSort_eq_reverse {r : α → α → Prop} [DecidableRel r] :
    ∀ (l : List α), l.Pairwise (fun a b => ¬ r a b) → l.insertionSort r = l.reverse
  | [], _ => rfl
  | a :: t, h => by
    rw [List.insertionSort, insertionSort_eq_reverse t h.of_cons,
      orderedInsert_append_last a t.reverse
        (fun x hx => (List.pairwise_cons.mp h).1 x (List.mem_reverse.mp hx)),
      List.reverse_cons]

theorem jsSort_eq_reverse (cmp : α → α → Ordering) (l : List α)
    (h : l.Pairwise (fun a b => cmp a b = .gt)) : jsSort cmp l = l.reverse :=
  insertionSort_eq_reverse l (h.imp (fun hab => not_ne_iff.mpr hab))

/-! ### Facts about the JavaScript-object embedding -/

theorem objGet_eq_none_iff (m : List (String × α)) (k : String) :
    objGet m k = none ↔ m.any (fun p => p.1 == k) = false := by
  unfold objGet
  simp [List.find?_eq_none, List.any_eq_true]

theorem objGet_isSome_iff (m : List (String × α)) (k : String) :
    (objGet m k).isSome = true ↔ k ∈ m.map Prod.fst := by
  unfold objGet
  simp only [Option.isSome_map', List.find?_isSome, List.mem_map, beq_iff_eq]

theorem objGet_of_mem_nodup {k : String} {v : α} :
    ∀ {m : List (String × α)}, (m.map Prod.fst).Nodup → (k, v) ∈ m → objGet m k = some v
  | [], _, hmem => by simp at hmem
  | p :: t, hnd, hmem => by
    rcases List.mem_cons.mp hmem with he | ht
    · rw [← he]
      simp [objGet]
    · have hp : ¬ p.1 = k := by
        intro hb
        have hk : k ∈ t.map Prod.fst := List.mem_map.mpr ⟨(k, v), ht, rfl⟩
        exact (List.nodup_cons.mp (by simpa using hnd)).1 (hb ▸ hk)
      have := objGet_of_mem_nodup
        (by simpa using (List.nodup_cons.mp (by simpa using hnd)).2) ht
      simp only [objGet] at this ⊢
      simpa [hp] using this

theorem find_map_update (k : String) (v : α) :
    ∀ (m : List (String × α)), m.any (fun p => p.1 == k) = true →
      objGet (m.map (fun p => if p.1 == k then (k, v) else p)) k = some v
  | [], h => by simp at h
  | p :: t, h => by
    by_cases hp : p.1 = k
    · simp [objGet, hp]
    · have ht : t.any (fun p => p.1 == k) = true := by
        rcases List.any_eq_true.mp h with ⟨q, hq, hqk⟩
        rcases List.mem_cons.mp hq with he | hqt
        · exact absurd (beq_iff_eq.mp (he ▸ hqk)) hp
        · exact List.any_eq_true.mpr ⟨q, hqt, hqk⟩
      have := find_map_update k v t ht
      simp only [objGet] at this ⊢
      simpa [hp] using this

theorem objGet_objSet_self (m : List (String × α)) (k : String) (v : α) :
    objGet (objSet m k v) k = some v := by
  unfold objSet
  split_ifs with h
  · exact find_map_update k v m h
  · unfold objGet
    rw [List.find?_append]
    have hnone : m.find? (fun p => p.1 == k) = none := by
      rw [List.find?_eq_none]
      intro x hx hbx
      exact h (List.any_eq_true.mpr ⟨x, hx, hbx⟩)
    rw [hnone]
    simp

theorem filter_ne_map_update (k : String) (v : α) :
    ∀ (m : List (String × α)),
      (m.map (fun p => if p.1 == k then (k, v) else p)).filter (fun p => !(p.1 == k)) =
        m.filter (fun p => !(p.1 == k))
  | [] => rfl
  | p :: t => by
    have ih := filter_ne_map_update k v t
    simp only [beq_iff_eq] at ih
    by_cases hp : p.1 = k
    · simp only [List.map_cons, List.filter_cons] at ih ⊢
      simp [hp, ih]
    · simp only [List.map_cons, List.filter_cons] at ih ⊢
      simp [hp, ih]

theorem objSet_filter_ne (m : List (String × α)) (k : String) (v : α) :
    (objSet m k v).filter (fun p => !(p.1 == k)) = m.filter (fun p => !(p.1 == k)) := by
  unfold objSet
  split_ifs with h
  · exact filter_ne_map_update k v m
  · simp [List.filter_append]

theorem rebuildByKeys_keys (m : List (String × α)) :
    ∀ (ks : List String), (∀ k ∈ ks, k ∈ m.map Prod.fst) →
      (rebuildByKeys m ks).map Prod.fst = ks
  | [], _ => rfl
  | a :: t, h => by
    have ha : (objGet m a).isSome = true := (objGet_isSome_iff m a).mpr (h a (List.mem_cons_self a t))
    rcases Option.isSome_iff_exists.mp ha with ⟨v, hv⟩
    unfold rebuildByKeys
    rw [List.filterMap_cons, hv]
    simp only [Option.map_some']
    have := rebuildByKeys_keys m t (fun k hk => h k (List.mem_cons_of_mem a hk))
    unfold rebuildByKeys at this
    simp [this]

theorem mem_rebuildByKeys {m : List (String × α)} {ks : List String} {k : String} {v : α} :
    (k, v) ∈ rebuildByKeys m ks ↔ k ∈ ks ∧ objGet m k = some v := by
  unfold rebuildByKeys
  rw [List.mem_filterMap]
  constructor
  · rintro ⟨a, ha, hf⟩
    rcases Option.map_eq_some'.mp hf with ⟨w, hw, he⟩
    obtain ⟨rfl, rfl⟩ : a = k ∧ w = v := by
      constructor <;> [exact congrArg Prod.fst he; exact congrArg Prod.snd he]
    exact ⟨ha, hw⟩
  · rintro ⟨hk, hv⟩
    exact ⟨k, hk, by rw [hv]; rfl⟩

theorem objGet_rebuildByKeys (m : List (String × α)) :
    ∀ (ks : List String), ks.Nodup → ∀ (k : String),
      objGet (rebuildByKeys m ks) k = if k ∈ ks then objGet m k else none
  | [], _, k => by simp [rebuildByKeys, objGet]
  | a :: t, hnd, k => by
    rcases hv : objGet m a with _ | v
    · have hskip : rebuildByKeys m (a :: t) = rebuildByKeys m t := by
        unfold rebuildByKeys
        rw [List.filterMap_cons, hv]
        rfl
      rw [hskip, objGet_rebuildByKeys m t (List.nodup_cons.mp hnd).2 k]
      by_cases hk : k = a
      · subst hk
        rw [if_neg (List.nodup_cons.mp hnd).1, if_pos (List.mem_cons_self k t), hv]
      · simp [List.mem_cons, hk]
    · have hcons : rebuildByKeys m (a :: t) = (a, v) :: rebuildByKeys m t := by
        unfold rebuildByKeys
        rw [List.filterMap_cons, hv]
        rfl
      rw [hcons]
      by_cases hk : k = a
      · subst hk
        unfold objGet
        unfold objGet at hv
        rw [List.find?_cons_of_pos _ (by simp)]
        simp [hv, List.mem_cons_self]
      · unfold objGet
        rw [List.find?_cons_of_neg _ (by simpa using fun h => (hk h.symm).elim)]
        have := objGet_rebuildByKeys m t (List.nodup_cons.mp hnd).2 k
        unfold objGet at this
        rw [this]
        simp [List.mem_cons, hk]

theorem rebuildByKeys_self (m : List (String × α)) (ks : List String) (hnd : ks.Nodup) :
    rebuildByKeys (rebuildByKeys m ks) ks = rebuildByKeys m ks := by
  unfold rebuildByKeys
  apply List.filterMap_congr
  intro k hk
  have := objGet_rebuildByKeys m ks hnd k
  unfold rebuildByKeys at this
  rw [this, if_pos hk]

/-! ### The three project comparators are total and transitive -/

theorem cmpNameAsc_total (a b : ProjectInfo) : cmpNameAsc a b ≠ .gt ∨ cmpNameAsc b a ≠ .gt :=
  cmpStr_ne_gt_total a.name b.name

theorem cmpNameAsc_trans (a b c : ProjectInfo) :
    cmpNameAsc a b ≠ .gt → cmpNameAsc b c ≠ .gt → cmpNameAsc a c ≠ .gt :=
  cmpStr_ne_gt_trans a.name b.name c.name

theorem cmpNameDesc_total (a b : ProjectInfo) : cmpNameDesc a b ≠ .gt ∨ cmpNameDesc b a ≠ .gt :=
  cmpStr_ne_gt_total b.name a.name

theorem cmpNameDesc_trans (a b c : ProjectInfo) :
    cmpNameDesc a b ≠ .gt → cmpNameDesc b c ≠ .gt → cmpNameDesc a c ≠ .gt :=
  fun h1 h2 => cmpStr_ne_gt_trans c.name b.name a.name h2 h1

theorem cmpColor_char (a b : ProjectInfo) :
    cmpColor a b ≠ .gt ↔
      (colorTruthy a.color = true ∧ colorTruthy b.color = false) ∨
        (colorTruthy a.color = colorTruthy b.color ∧ cmpStr a.name b.name ≠ .gt) := by
  unfold cmpColor
  rcases ha : colorTruthy a.color <;> rcases hb : colorTruthy b.color <;> simp [ha, hb]

theorem cmpColor_total (a b : ProjectInfo) : cmpColor a b ≠ .gt ∨ cmpColor b a ≠ .gt := by
  rw [cmpColor_char, cmpColor_char]
  rcases ha : colorTruthy a.color <;> rcases hb : colorTruthy b.color <;> simp [ha, hb]
  · exact cmpStr_ne_gt_total a.name b.name
  · exact cmpStr_ne_gt_total a.name b.name

theorem cmpColor_trans (a b c : ProjectInfo) :
    cmpColor a b ≠ .gt → cmpColor b c ≠ .gt → cmpColor a c ≠ .gt := by
  intro h1 h2
  rw [cmpColor_char] at h1 h2 ⊢
  rcases ha : colorTruthy a.color <;> rcases hb : colorTruthy b.color <;>
    rcases hc : colorTruthy c.color <;> simp [ha, hb, hc] at h1 h2 ⊢
  · exact cmpStr_ne_gt_trans a.name b.name c.name h1 h2
  · exact cmpStr_ne_gt_trans a.name b.name c.name h1 h2

/-! ### The full scan builds exactly the map of scanned groups -/

theorem foldl_objSet_scan :
    ∀ (gs : List GroupEntry) (acc : List (String × List ProjectInfo)),
      (∀ g ∈ gs, ¬ g.name ∈ acc.map Prod.fst) →
      (gs.map GroupEntry.name).Nodup →
      gs.foldl (fun acc g => objSet acc g.name (listProjects g)) acc =
        acc ++ gs.map (fun g => (g.name, listProjects g))
  | [], acc, _, _ => by simp
  | g :: t, acc, hdisj, hnd => by
    rw [List.map_cons, List.nodup_cons] at hnd
    have hnotin : ¬ g.name ∈ acc.map Prod.fst := hdisj g (List.mem_cons_self g t)
    have hany : ¬ (acc.any (fun p => p.1 == g.name) = true) := by
      intro hc
      rcases List.any_eq_true.mp hc with ⟨p, hp, hpk⟩
      exact hnotin (List.mem_map.mpr ⟨p, hp, beq_iff_eq.mp hpk⟩)
    have hset : objSet acc g.name (listProjects g) = acc ++ [(g.name, listProjects g)] := by
      simp [objSet, hany]
    have hdisj' : ∀ g' ∈ t, ¬ g'.name ∈ (acc ++ [(g.name, listProjects g)]).map Prod.fst := by
      intro g' hg' hmem
      rw [List.map_append, List.mem_append] at hmem
      rcases hmem with hmem | hmem
      · exact hdisj g' (List.mem_cons_of_mem g hg') hmem
      · have hgname : g'.name = g.name := by simpa using hmem
        exact hnd.1 (hgname ▸ List.mem_map.mpr ⟨g', hg', rfl⟩)
    rw [List.foldl_cons, hset,
      foldl_objSet_scan t (acc ++ [(g.name, listProjects g)]) hdisj' hnd.2]
    simp

/-! ### Small structural helpers -/

theorem config_update_self (c : ProjectConfig) (mm : List (String × List ProjectInfo))
    (h : c.projectsData = some mm) : { c with projectsData := some mm } = c := by
  cases c
  simp only at h
  rw [h]

theorem sortProjects_none (k : String) (c : ProjectConfig) (h : c.projectsData = none) :
    sortProjects k c = c := by
  unfold sortProjects
  rw [h]

theorem sortProjectsV1_none (k : String) (c : ProjectConfig) (h : c.projectsData = none) :
    sortProjectsV1 k c = c := by
  unfold sortProjectsV1
  rw [h]

/-! ### Claim theorems -/

/-- C4: an import payload with `baseProjectsFolder` or `projectsData` absent is
rejected with the invalid-configuration error before anything is saved, so the
persisted catalog is exactly what it was. -/
theorem importConfig_rejects_incomplete_payload (payload : ProjectConfig) (fs : FsEntries)
    (substitute : Option String) (cfg : ProjectConfig)
    (h : payload.baseProjectsFolder = none ∨ payload.projectsData = none) :
    handleImportConfig payload fs substitute = .error "Invalid configuration file" ∧
      persistAfterImport payload fs substitute cfg = cfg := by
  have herr : handleImportConfig payload fs substitute = .error "Invalid configuration file" := by
    unfold handleImportConfig
    rcases h with h | h
    · rw [h]
    · rcases hb : payload.baseProjectsFolder with _ | b
      · rfl
      · rw [h]
  refine ⟨herr, ?_⟩
  unfold persistAfterImport
  rw [herr]

/-- C4 witness: a payload carrying only a base folder (no `projectsData`) is
rejected and a nonempty stored catalog survives unchanged. -/
theorem importConfig_rejects_incomplete_payload_witness :
    handleImportConfig { baseProjectsFolder := some "/p" } [] none =
        .error "Invalid configuration file" ∧
      persistAfterImport { baseProjectsFolder := some "/p" } [] none
        { lastScanTime := some 5 } = { lastScanTime := some 5 } :=
  importConfig_rejects_incomplete_payload _ _ _ _ (Or.inr rfl)

/-- C3: when the stored base folder is truthy and still exists on disk and
project data is present, importing the exported snapshot succeeds and the
persisted catalog equals the exported object, which equals the original
catalog on all four persisted fields. -/
theorem export_import_round_trip (cfg : ProjectConfig) (fs : FsEntries)
    (substitute : Option String) (b : String)
    (hb : cfg.baseProjectsFolder = some b) (hb' : b ≠ "")
    (hex : existsSync fs b = true) (hpd : cfg.projectsData.isSome = true) :
    handleImportConfig (exportConfig cfg) fs substitute = .ok (exportConfig cfg) ∧
      exportConfig cfg = cfg ∧
      persistAfterImport (exportConfig cfg) fs substitute cfg = cfg := by
  have heta : exportConfig cfg = cfg := by cases cfg; rfl
  rw [heta]
  rcases Option.isSome_iff_exists.mp hpd with ⟨pd, hpdv⟩
  have hok : handleImportConfig cfg fs substitute = .ok cfg := by
    unfold handleImportConfig
    rw [hb, hpdv]
    simp [hb', hex]
  refine ⟨hok, rfl, ?_⟩
  unfold persistAfterImport
  rw [hok]

/-- C3 witness: a concrete catalog with an existing base folder round-trips. -/
theorem export_import_round_trip_witness :
    handleImportConfig
        (exportConfig
          { baseProjectsFolder := some "/base",
            projectsData := some [("g", [])],
            lastScanTime := some 1,
            groupStates := some [("g", true)] })
        [("/base", true)] none =
      .ok (exportConfig
          { baseProjectsFolder := some "/base",
            projectsData := some [("g", [])],
            lastScanTime := some 1,
            groupStates := some [("g", true)] }) ∧
      exportConfig
          { baseProjectsFolder := some "/base",
            projectsData := some [("g", [])],
            lastScanTime := some 1,
            groupStates := some [("g", true)] } =
        { baseProjectsFolder := some "/base",
          projectsData := some [("g", [])],
          lastScanTime := some 1,
          groupStates := some [("g", true)] } ∧
      persistAfterImport
          (exportConfig
            { baseProjectsFolder := some "/base",
              projectsData := some [("g", [])],
              lastScanTime := some 1,
              groupStates := some [("g", true)] })
          [("/base", true)] none
          { baseProjectsFolder := some "/base",
            projectsData := some [("g", [])],
            lastScanTime := some 1,
            groupStates := some [("g", true)] } =
        { baseProjectsFolder := some "/base",
          projectsData := some [("g", [])],
          lastScanTime := some 1,
          groupStates := some [("g", true)] } :=
  export_import_round_trip _ _ _ "/base" rfl (by decide) rfl rfl

/-- Filesystem containing a single regular file, for the C8 counterexample. -/
def fileOnlyFs : FsEntries := [("/projects/readme.txt", false)]

/-- C8 counterexample: `setBaseProjectsFolder` only checks `existsSync`, so a
path that exists as a regular file (not a directory) is accepted and
persisted, where the claim demands an `InvalidPathError`; and the empty path,
which exists as no directory, opens the folder picker instead of failing (a
cancelled dialog is a silent no-op). -/
theorem setBaseProjectsFolder_claim_false :
    isDirOn fileOnlyFs "/projects/readme.txt" = false ∧
      setBaseProjectsFolder (some "/projects/readme.txt") none fileOnlyFs {} =
        .ok ({ baseProjectsFolder := some "/projects/readme.txt" }, some "/projects/readme.txt") ∧
      isDirOn [] "" = false ∧
      setBaseProjectsFolder (some "") none [] {} = .ok ({}, none) :=
  ⟨rfl, rfl, rfl, rfl⟩

/-- C8 amended: for every nonempty provided path, `setBaseProjectsFolder`
succeeds whenever the path exists on disk (directory or not), persisting only
`baseProjectsFolder`, and fails with the folder-does-not-exist error,
persisting nothing, whenever it does not; an absent or empty path instead
defers to the folder-picker dialog. -/
theorem setBaseProjectsFolder_amended (p : String) (hp : p ≠ "") (dlg : Option String)
    (fs : FsEntries) (cfg : ProjectConfig) :
    (existsSync fs p = true →
      ∃ cfg', setBaseProjectsFolder (some p) dlg fs cfg = .ok (cfg', some p) ∧
        cfg'.baseProjectsFolder = some p ∧
        cfg'.projectsData = cfg.projectsData ∧
        cfg'.lastScanTime = cfg.lastScanTime ∧
        cfg'.groupStates = cfg.groupStates) ∧
    (existsSync fs p = false →
      setBaseProjectsFolder (some p) dlg fs cfg = .error ("Folder does not exist: " ++ p)) := by
  constructor
  · intro hex
    refine ⟨{ cfg with baseProjectsFolder := some p }, ?_, rfl, rfl, rfl, rfl⟩
    unfold setBaseProjectsFolder
    simp [hp, hex]
  · intro hex
    unfold setBaseProjectsFolder
    simp [hp, hex]

/-- C8 witness: an existing directory path is persisted as the base folder
while the other fields of a nonempty catalog survive. -/
theorem setBaseProjectsFolder_amended_witness :
    ∃ cfg', setBaseProjectsFolder (some "/base") none [("/base", true)]
        { lastScanTime := some 7 } = .ok (cfg', some "/base") ∧
      cfg'.baseProjectsFolder = some "/base" ∧
      cfg'.projectsData = ({ lastScanTime := some 7 } : ProjectConfig).projectsData ∧
      cfg'.lastScanTime = ({ lastScanTime := some 7 } : ProjectConfig).lastScanTime ∧
      cfg'.groupStates = ({ lastScanTime := some 7 } : ProjectConfig).groupStates :=
  (setBaseProjectsFolder_amended "/base" (by decide) none [("/base", true)]
    { lastScanTime := some 7 }).1 rfl

/-- C2: refreshing a group whose folder exists on disk succeeds, replaces only
that group's entry (giving it the freshly scanned list), and leaves every
other key of the map, the base folder, the scan time and the group states
untouched. -/
theorem refreshGroup_frame (cfg : ProjectConfig) (d : BaseDir) (G : String) (g : GroupEntry)
    (b : String) (hb : cfg.baseProjectsFolder = some b) (hb' : b ≠ "")
    (hg : d.children.find? (fun e => e.name == G) = some g) (hdir : g.isDir = true) :
    ∃ cfg', refreshGroup cfg (some d) G = .ok cfg' ∧
      cfg'.baseProjectsFolder = cfg.baseProjectsFolder ∧
      cfg'.lastScanTime = cfg.lastScanTime ∧
      cfg'.groupStates = cfg.groupStates ∧
      ∃ m', cfg'.projectsData = some m' ∧
        objGet m' G = some (listProjects g) ∧
        m'.filter (fun p => !(p.1 == G)) =
          (cfg.projectsData.getD []).filter (fun p => !(p.1 == G)) := by
  have hrun : refreshGroup cfg (some d) G =
      .ok { cfg with
        projectsData := some (objSet (cfg.projectsData.getD []) G (listProjects g)) } := by
    unfold refreshGroup
    rw [hb]
    simp [hb', hg, hdir]
  exact ⟨_, hrun, rfl, rfl, rfl, _, rfl, objGet_objSet_self _ _ _, objSet_filter_ne _ _ _⟩

/-- C2 witness: refreshing the existing group folder `Work` in a two-group
catalog replaces only its entry. -/
theorem refreshGroup_frame_witness :
    ∃ cfg', refreshGroup
        { baseProjectsFolder := some "/base",
          projectsData := some [("Work", []), ("Home", [⟨"C", none⟩])],
          lastScanTime := some 3,
          groupStates := some [("Work", true)] }
        (some ⟨[⟨"Work", true, [⟨"A", true, none⟩]⟩]⟩) "Work" = .ok cfg' ∧
      cfg'.baseProjectsFolder = some "/base" ∧
      cfg'.lastScanTime = some 3 ∧
      cfg'.groupStates = some [("Work", true)] ∧
      ∃ m', cfg'.projectsData = some m' ∧
        objGet m' "Work" = some (listProjects ⟨"Work", true, [⟨"A", true, none⟩]⟩) ∧
        m'.filter (fun p => !(p.1 == "Work")) =
          ([("Work", []), ("Home", [⟨"C", none⟩])] :
              List (String × List ProjectInfo)).filter (fun p => !(p.1 == "Work")) :=
  refreshGroup_frame _ _ "Work" _ "/base" rfl (by decide) rfl rfl

/-- C9: refreshing a group folder that exists on disk but has no entry yet in
`projectsData` (or when `projectsData` is entirely absent) does not fail: the
map is initialized if needed and the group is appended as a new key holding
its scanned project list. -/
theorem refreshGroup_adds_missing_group (cfg : ProjectConfig) (d : BaseDir) (G : String)
    (g : GroupEntry) (b : String) (hb : cfg.baseProjectsFolder = some b) (hb' : b ≠ "")
    (hg : d.children.find? (fun e => e.name == G) = some g) (hdir : g.isDir = true)
    (hnone : objGet (cfg.projectsData.getD []) G = none) :
    ∃ cfg', refreshGroup cfg (some d) G = .ok cfg' ∧
      cfg'.projectsData = some ((cfg.projectsData.getD []) ++ [(G, listProjects g)]) ∧
      objGet ((cfg.projectsData.getD []) ++ [(G, listProjects g)]) G =
        some (listProjects g) := by
  have hany : (cfg.projectsData.getD []).any (fun p => p.1 == G) = false :=
    (objGet_eq_none_iff _ _).mp hnone
  have hset : objSet (cfg.projectsData.getD []) G (listProjects g) =
      (cfg.projectsData.getD []) ++ [(G, listProjects g)] := by
    simp [objSet, hany]
  have hrun : refreshGroup cfg (some d) G =
      .ok { cfg with
        projectsData := some (objSet (cfg.projectsData.getD []) G (listProjects g)) } := by
    unfold refreshGroup
    rw [hb]
    simp [hb', hg, hdir]
  exact ⟨_, hrun, by simp [hset], hset ▸ objGet_objSet_self _ _ _⟩

/-- C9 witness: a catalog with absent `projectsData` gains the refreshed group
as its only key. -/
theorem refreshGroup_adds_missing_group_witness :
    ∃ cfg', refreshGroup { baseProjectsFolder := some "/base" }
        (some ⟨[⟨"Work", true, [⟨"A", true, none⟩]⟩]⟩) "Work" = .ok cfg' ∧
      cfg'.projectsData =
        some ((({ baseProjectsFolder := some "/base" } :
            ProjectConfig).projectsData.getD []) ++
          [("Work", listProjects ⟨"Work", true, [⟨"A", true, none⟩]⟩)]) ∧
      objGet ((({ baseProjectsFolder := some "/base" } :
            ProjectConfig).projectsData.getD []) ++
          [("Work", listProjects ⟨"Work", true, [⟨"A", true, none⟩]⟩)]) "Work" =
        some (listProjects ⟨"Work", true, [⟨"A", true, none⟩]⟩) :=
  refreshGroup_adds_missing_group _ _ "Work" _ "/base" rfl (by decide) rfl rfl rfl

/-- C1: on a base folder that exists while `baseProjectsFolder` is set,
`scanProjects` succeeds; the resulting map's keys are exactly the first-level
directory names in order, every first-level directory maps to the names of
its own directory entries, `lastScanTime` becomes the current time, and the
other fields persist. -/
theorem scanProjects_spec (cfg : ProjectConfig) (d : BaseDir) (now : Nat) (b : String)
    (hb : cfg.baseProjectsFolder = some b) (hb' : b ≠ "")
    (hnd : (d.children.map GroupEntry.name).Nodup) :
    ∃ cfg' m, scanProjects cfg (some d) now = .ok cfg' ∧
      cfg'.projectsData = some m ∧
      m.map Prod.fst = (d.children.filter (fun e => e.isDir)).map GroupEntry.name ∧
      (∀ g ∈ d.children, g.isDir = true →
        ∃ l, objGet m g.name = some l ∧
          l.map ProjectInfo.name = (g.children.filter (fun e => e.isDir)).map ProjEntry.name) ∧
      cfg'.lastScanTime = some now ∧
      cfg'.baseProjectsFolder = cfg.baseProjectsFolder ∧
      cfg'.groupStates = cfg.groupStates := by
  have hndf : ((d.children.filter (fun e => e.isDir)).map GroupEntry.name).Nodup :=
    List.Nodup.sublist (List.Sublist.map GroupEntry.name (List.filter_sublist d.children)) hnd
  have hfold : (d.children.filter (fun e => e.isDir)).foldl
      (fun acc g => objSet acc g.name (listProjects g)) [] =
      (d.children.filter (fun e => e.isDir)).map (fun g => (g.name, listProjects g)) := by
    rw [foldl_objSet_scan _ [] (fun g _ => by simp) hndf]
    simp
  have hrun : scanProjects cfg (some d) now =
      .ok { cfg with
        projectsData :=
          some ((d.children.filter (fun e => e.isDir)).map (fun g => (g.name, listProjects g))),
        lastScanTime := some now } := by
    unfold scanProjects
    rw [hb]
    simp [hb', hfold]
  refine ⟨_, _, hrun, rfl, ?_, ?_, rfl, rfl, rfl⟩
  · rw [List.map_map]
    rfl
  · intro g hg hdir
    refine ⟨listProjects g, ?_, ?_⟩
    · apply objGet_of_mem_nodup
      · rw [List.map_map]
        exact hndf
      · exact List.mem_map.mpr ⟨g, List.mem_filter.mpr ⟨hg, hdir⟩, rfl⟩
    · unfold listProjects
      rw [List.map_map]
      rfl

/-- C1 witness: the spec scenario `Work/\x7bA,B\x7d` and `Home/\x7bC\x7d`. -/
theorem scanProjects_spec_witness :
    ∃ cfg' m, scanProjects { baseProjectsFolder := some "/root" }
        (some ⟨[⟨"Work", true, [⟨"A", true, none⟩, ⟨"B", true, none⟩]⟩,
                ⟨"Home", true, [⟨"C", true, none⟩]⟩]⟩) 42 = .ok cfg' ∧
      cfg'.projectsData = some m ∧
      m.map Prod.fst =
        ((⟨[⟨"Work", true, [⟨"A", true, none⟩, ⟨"B", true, none⟩]⟩,
            ⟨"Home", true, [⟨"C", true, none⟩]⟩]⟩ : BaseDir).children.filter
          (fun e => e.isDir)).map GroupEntry.name ∧
      (∀ g ∈ (⟨[⟨"Work", true, [⟨"A", true, none⟩, ⟨"B", true, none⟩]⟩,
                ⟨"Home", true, [⟨"C", true, none⟩]⟩]⟩ : BaseDir).children, g.isDir = true →
        ∃ l, objGet m g.name = some l ∧
          l.map ProjectInfo.name = (g.children.filter (fun e => e.isDir)).map ProjEntry.name) ∧
      cfg'.lastScanTime = some 42 ∧
      cfg'.baseProjectsFolder = ({ baseProjectsFolder := some "/root" } :
        ProjectConfig).baseProjectsFolder ∧
      cfg'.groupStates = ({ baseProjectsFolder := some "/root" } : ProjectConfig).groupStates :=
  scanProjects_spec _ _ 42 "/root" rfl (by decide) (by decide)

/-! ### Color extraction (C7) -/

theorem truthyPath_char (p : List String) : ∀ (s : Json),
    truthyPath s p = if pathTruthy s p then jsonPath s p else none := by
  induction p with
  | nil =>
    intro s
    unfold truthyPath pathTruthy jsonPath
    rfl
  | cons k rest ih =>
    intro s
    by_cases hs : s.truthy = true
    · rcases hf : s.getField k with _ | w
      · unfold truthyPath pathTruthy jsonPath
        rw [hf]
        simp [hs]
      · unfold truthyPath pathTruthy jsonPath
        rw [hf]
        simp [hs, ih w]
    · unfold truthyPath pathTruthy
      simp [hs]

theorem pathTruthy_jsonPath (p : List String) : ∀ (s : Json), pathTruthy s p = true →
    ∃ v, jsonPath s p = some v := by
  induction p with
  | nil => intro s _; exact ⟨s, rfl⟩
  | cons k rest ih =>
    intro s h
    unfold pathTruthy at h
    rcases hf : s.getField k with _ | w
    · rw [hf] at h; simp at h
    · rw [hf] at h
      simp only [Bool.and_eq_true] at h
      rcases ih w h.2 with ⟨v, hv⟩
      exact ⟨v, by unfold jsonPath; rw [hf]; exact hv⟩

theorem getProjectColor_some (s : Json) :
    getProjectColor (some (some s)) =
      match truthyPath s nestedColorPath with
      | some v => some v
      | none =>
        match truthyPath s flatColorPath with
        | some v => some v
        | none => none := rfl

/-- C7 amended: `getProjectColor` returns `undefined` for a missing file,
malformed JSON or a falsy/absent chain; it returns the nested
`workbench.colorCustomizations["activityBar.background"]` value when that
whole chain is truthy, taking precedence over the flat form, and otherwise
the flat `"workbench.colorCustomizations"` form's value when that chain is
truthy; it never raises (it is a total function). -/
theorem getProjectColor_spec :
    getProjectColor none = none ∧
      getProjectColor (some none) = none ∧
      ∀ s : Json,
        (pathTruthy s nestedColorPath = true →
          getProjectColor (some (some s)) = jsonPath s nestedColorPath) ∧
        (pathTruthy s nestedColorPath = false → pathTruthy s flatColorPath = true →
          getProjectColor (some (some s)) = jsonPath s flatColorPath) ∧
        (pathTruthy s nestedColorPath = false → pathTruthy s flatColorPath = false →
          getProjectColor (some (some s)) = none) := by
  refine ⟨rfl, rfl, fun s => ⟨?_, ?_, ?_⟩⟩
  · intro ht
    rcases pathTruthy_jsonPath nestedColorPath s ht with ⟨v, hv⟩
    rw [getProjectColor_some, truthyPath_char, ht, if_pos rfl, hv]
  · intro hnt hft
    rcases pathTruthy_jsonPath flatColorPath s hft with ⟨v, hv⟩
    rw [getProjectColor_some, truthyPath_char nestedColorPath s, hnt,
      truthyPath_char flatColorPath s, hft, if_pos rfl, hv]
    rfl
  · intro hnt hft
    rw [getProjectColor_some, truthyPath_char nestedColorPath s, hnt,
      truthyPath_char flatColorPath s, hft]
    rfl

/-- C7 witness: the spec scenario settings file with a truthy nested color
yields exactly that color. -/
theorem getProjectColor_spec_witness :
    pathTruthy
        (Json.obj [("workbench", Json.obj [("colorCustomizations",
          Json.obj [("activityBar.background", Json.str "#ff0000")])])])
        nestedColorPath = true ∧
      getProjectColor (some (some (Json.obj [("workbench", Json.obj [("colorCustomizations",
          Json.obj [("activityBar.background", Json.str "#ff0000")])])]))) =
        jsonPath
          (Json.obj [("workbench", Json.obj [("colorCustomizations",
            Json.obj [("activityBar.background", Json.str "#ff0000")])])])
          nestedColorPath :=
  ⟨rfl, (getProjectColor_spec.2.2 _).1 rfl⟩

/-- Settings file whose nested color is present but falsy (the empty string)
while the flat form carries a truthy color, for the C7 counterexample. -/
def cexSettings : Json :=
  Json.obj
    [("workbench", Json.obj [("colorCustomizations",
        Json.obj [("activityBar.background", Json.str "")])]),
     ("workbench.colorCustomizations", Json.obj [("activityBar.background",
        Json.str "#abcdef")])]

/-- C7 counterexample: both forms are present, so the claim demands the nested
value (the empty string); the code instead skips the falsy nested value and
returns the flat one, so presence is not what is checked — truthiness is. -/
theorem getProjectColor_claim_false :
    jsonPath cexSettings nestedColorPath = some (Json.str "") ∧
      jsonPath cexSettings flatColorPath = some (Json.str "#abcdef") ∧
      getProjectColor (some (some cexSettings)) = some (Json.str "#abcdef") ∧
      Json.str "#abcdef" ≠ Json.str "" := by
  refine ⟨rfl, rfl, rfl, ?_⟩
  intro h
  injection h with h2
  exact absurd h2 (by decide)

/-! ### Shape of each sort criterion -/

theorem sortProjects_name_asc_eq (c : ProjectConfig) (mm : List (String × List ProjectInfo))
    (h : c.projectsData = some mm) :
    sortProjects "name-asc" c =
      { c with projectsData := some (mm.map (fun p => (p.1, jsSort cmpNameAsc p.2))) } := by
  unfold sortProjects
  rw [h]
  have h1 : jsIncludes "name-asc" "group" = false := rfl
  simp [h1, cmpNameAsc]

theorem sortProjects_name_desc_eq (c : ProjectConfig) (mm : List (String × List ProjectInfo))
    (h : c.projectsData = some mm) :
    sortProjects "name-desc" c =
      { c with projectsData := some (mm.map (fun p => (p.1, jsSort cmpNameDesc p.2))) } := by
  unfold sortProjects
  rw [h]
  have h1 : jsIncludes "name-desc" "group" = false := rfl
  simp [h1, cmpNameDesc]

theorem sortProjects_group_asc_eq (c : ProjectConfig) (mm : List (String × List ProjectInfo))
    (h : c.projectsData = some mm) :
    sortProjects "group-asc" c =
      { c with projectsData := some (rebuildByKeys mm (jsSort cmpStr (mm.map Prod.fst))) } := by
  unfold sortProjects
  rw [h]
  have h1 : jsIncludes "group-asc" "group" = true := rfl
  simp [h1]

theorem sortProjects_group_desc_eq (c : ProjectConfig) (mm : List (String × List ProjectInfo))
    (h : c.projectsData = some mm) :
    sortProjects "group-desc" c =
      { c with
        projectsData := some (rebuildByKeys mm ((jsSort cmpStr (mm.map Prod.fst)).reverse)) } := by
  unfold sortProjects
  rw [h]
  have h1 : jsIncludes "group-desc" "group" = true := rfl
  simp [h1]

theorem sortProjects_other_fixed (s : String) (c : ProjectConfig)
    (h1 : jsIncludes s "group" = false) (h2 : s ≠ "name-asc") (h3 : s ≠ "name-desc") :
    sortProjects s c = c := by
  rcases hm : c.projectsData with _ | mm
  · exact sortProjects_none s c hm
  · unfold sortProjects
    rw [hm]
    simp [h1, h2, h3]
    exact config_update_self c mm hm

theorem sortProjectsV1_name_asc_eq (c : ProjectConfig) (mm : List (String × List ProjectInfo))
    (h : c.projectsData = some mm) :
    sortProjectsV1 "name-asc" c =
      { c with projectsData := some (mm.map (fun p => (p.1, jsSort cmpNameAsc p.2))) } := by
  unfold sortProjectsV1
  rw [h]
  simp [cmpNameAsc]

theorem sortProjectsV1_name_desc_eq (c : ProjectConfig) (mm : List (String × List ProjectInfo))
    (h : c.projectsData = some mm) :
    sortProjectsV1 "name-desc" c =
      { c with projectsData := some (mm.map (fun p => (p.1, jsSort cmpNameDesc p.2))) } := by
  unfold sortProjectsV1
  rw [h]
  simp [cmpNameDesc]

theorem sortProjectsV1_color_eq (c : ProjectConfig) (mm : List (String × List ProjectInfo))
    (h : c.projectsData = some mm) :
    sortProjectsV1 "color" c =
      { c with projectsData := some (mm.map (fun p => (p.1, jsSort cmpColor p.2))) } := by
  unfold sortProjectsV1
  rw [h]
  simp [cmpColor]

theorem sortProjectsV1_other_fixed (s : String) (c : ProjectConfig)
    (h2 : s ≠ "name-asc") (h3 : s ≠ "name-desc") (h4 : s ≠ "color") :
    sortProjectsV1 s c = c := by
  rcases hm : c.projectsData with _ | mm
  · exact sortProjectsV1_none s c hm
  · unfold sortProjectsV1
    rw [hm]
    simp [h2, h3, h4]
    exact config_update_self c mm hm

/-! ### Idempotence of each criterion -/

theorem map_values_jsSort_idem (cmp : ProjectInfo → ProjectInfo → Ordering)
    (htot : ∀ a b, cmp a b ≠ .gt ∨ cmp b a ≠ .gt)
    (htr : ∀ a b c, cmp a b ≠ .gt → cmp b c ≠ .gt → cmp a c ≠ .gt)
    (mm : List (String × List ProjectInfo)) :
    (mm.map (fun p => (p.1, jsSort cmp p.2))).map (fun p => (p.1, jsSort cmp p.2)) =
      mm.map (fun p => (p.1, jsSort cmp p.2)) := by
  rw [List.map_map]
  refine List.map_congr_left (fun p _ => ?_)
  simp [jsSort_idem cmp htot htr]

theorem sortProjects_name_asc_idem (c : ProjectConfig) :
    sortProjects "name-asc" (sortProjects "name-asc" c) = sortProjects "name-asc" c := by
  rcases hm : c.projectsData with _ | mm
  · rw [sortProjects_none _ _ hm, sortProjects_none _ _ hm]
  · rw [sortProjects_name_asc_eq c mm hm,
      sortProjects_name_asc_eq _ (mm.map (fun p => (p.1, jsSort cmpNameAsc p.2))) rfl,
      map_values_jsSort_idem cmpNameAsc cmpNameAsc_total cmpNameAsc_trans mm]

theorem sortProjects_name_desc_idem (c : ProjectConfig) :
    sortProjects "name-desc" (sortProjects "name-desc" c) = sortProjects "name-desc" c := by
  rcases hm : c.projectsData with _ | mm
  · rw [sortProjects_none _ _ hm, sortProjects_none _ _ hm]
  · rw [sortProjects_name_desc_eq c mm hm,
      sortProjects_name_desc_eq _ (mm.map (fun p => (p.1, jsSort cmpNameDesc p.2))) rfl,
      map_values_jsSort_idem cmpNameDesc cmpNameDesc_total cmpNameDesc_trans mm]

theorem sortProjects_group_asc_idem (c : ProjectConfig)
    (hnd : ∀ m, c.projectsData = some m → (m.map Prod.fst).Nodup) :
    sortProjects "group-asc" (sortProjects "group-asc" c) = sortProjects "group-asc" c := by
  rcases hm : c.projectsData with _ | mm
  · rw [sortProjects_none _ _ hm, sortProjects_none _ _ hm]
  · have hndm := hnd mm hm
    have hkm : ∀ k ∈ jsSort cmpStr (mm.map Prod.fst), k ∈ mm.map Prod.fst :=
      fun k hk => (jsSort_perm cmpStr (mm.map Prod.fst)).mem_iff.mp hk
    have hkeys1 : (rebuildByKeys mm (jsSort cmpStr (mm.map Prod.fst))).map Prod.fst =
        jsSort cmpStr (mm.map Prod.fst) := rebuildByKeys_keys mm _ hkm
    have hksnd : (jsSort cmpStr (mm.map Prod.fst)).Nodup :=
      ((jsSort_perm cmpStr (mm.map Prod.fst)).symm).nodup hndm
    rw [sortProjects_group_asc_eq c mm hm,
      sortProjects_group_asc_eq _ (rebuildByKeys mm (jsSort cmpStr (mm.map Prod.fst))) rfl,
      hkeys1,
      jsSort_idem cmpStr cmpStr_ne_gt_total cmpStr_ne_gt_trans (mm.map Prod.fst),
      rebuildByKeys_self mm _ hksnd]

theorem sortProjects_group_desc_idem (c : ProjectConfig)
    (hnd : ∀ m, c.projectsData = some m → (m.map Prod.fst).Nodup) :
    sortProjects "group-desc" (sortProjects "group-desc" c) = sortProjects "group-desc" c := by
  rcases hm : c.projectsData with _ | mm
  · rw [sortProjects_none _ _ hm, sortProjects_none _ _ hm]
  · have hndm := hnd mm hm
    have hkmd : ∀ k ∈ (jsSort cmpStr (mm.map Prod.fst)).reverse, k ∈ mm.map Prod.fst :=
      fun k hk =>
        (jsSort_perm cmpStr (mm.map Prod.fst)).mem_iff.mp (List.mem_reverse.mp hk)
    have hkeys1 : (rebuildByKeys mm ((jsSort cmpStr (mm.map Prod.fst)).reverse)).map Prod.fst =
        (jsSort cmpStr (mm.map Prod.fst)).reverse := rebuildByKeys_keys mm _ hkmd
    have hksnd : (jsSort cmpStr (mm.map Prod.fst)).Nodup :=
      ((jsSort_perm cmpStr (mm.map Prod.fst)).symm).nodup hndm
    have hsorted : List.Sorted (fun a b => cmpStr a b ≠ .gt) (jsSort cmpStr (mm.map Prod.fst)) :=
      jsSort_sorted cmpStr cmpStr_ne_gt_total cmpStr_ne_gt_trans (mm.map Prod.fst)
    have hpair : (jsSort cmpStr (mm.map Prod.fst)).Pairwise (fun a b => cmpStr b a = .gt) :=
      (hsorted.and hksnd).imp (fun h => cmpStr_gt_of_ne_gt_of_ne h.1 h.2)
    have hrev : ((jsSort cmpStr (mm.map Prod.fst)).reverse).Pairwise
        (fun a b => cmpStr a b = .gt) := List.pairwise_reverse.mpr hpair
    have hsortrev : jsSort cmpStr ((jsSort cmpStr (mm.map Prod.fst)).reverse) =
        jsSort cmpStr (mm.map Prod.fst) := by
      rw [jsSort_eq_reverse cmpStr _ hrev, List.reverse_reverse]
    rw [sortProjects_group_desc_eq c mm hm,
      sortProjects_group_desc_eq _
        (rebuildByKeys mm ((jsSort cmpStr (mm.map Prod.fst)).reverse)) rfl,
      hkeys1, hsortrev,
      rebuildByKeys_self mm _ (List.nodup_reverse.mpr hksnd)]

/-- C5: for each of the five criteria, applying the sort twice yields exactly
the same catalog as applying it once, both for the current dashboard's
`sortProjects` (where `color` is a no-op) and for the first revision's
variant with its `color` comparator.  The key-distinctness hypothesis holds
for every catalog state, since JavaScript object keys are unique. -/
theorem sortProjects_idempotent (cfg : ProjectConfig) (k : String)
    (hk : k ∈ (["name-asc", "name-desc", "group-asc", "group-desc", "color"] : List String))
    (hnd : ∀ m, cfg.projectsData = some m → (m.map Prod.fst).Nodup) :
    sortProjects k (sortProjects k cfg) = sortProjects k cfg ∧
      sortProjectsV1 k (sortProjectsV1 k cfg) = sortProjectsV1 k cfg := by
  have hV1fix : ∀ s, s ≠ "name-asc" → s ≠ "name-desc" → s ≠ "color" →
      sortProjectsV1 s (sortProjectsV1 s cfg) = sortProjectsV1 s cfg := by
    intro s h2 h3 h4
    rw [sortProjectsV1_other_fixed s cfg h2 h3 h4, sortProjectsV1_other_fixed s cfg h2 h3 h4]
  have hV1map : ∀ (cmp : ProjectInfo → ProjectInfo → Ordering),
      (∀ a b, cmp a b ≠ .gt ∨ cmp b a ≠ .gt) →
      (∀ a b c, cmp a b ≠ .gt → cmp b c ≠ .gt → cmp a c ≠ .gt) →
      ∀ s, (∀ c mm, c.projectsData = some mm →
        sortProjectsV1 s c = { c with projectsData := some (mm.map (fun p => (p.1, jsSort cmp p.2))) }) →
      sortProjectsV1 s (sortProjectsV1 s cfg) = sortProjectsV1 s cfg := by
    intro cmp htot htr s hshape
    rcases hm : cfg.projectsData with _ | mm
    · rw [sortProjectsV1_none _ _ hm, sortProjectsV1_none _ _ hm]
    · rw [hshape cfg mm hm, hshape _ (mm.map (fun p => (p.1, jsSort cmp p.2))) rfl,
        map_values_jsSort_idem cmp htot htr mm]
  fin_cases hk
  · exact ⟨sortProjects_name_asc_idem cfg,
      hV1map cmpNameAsc cmpNameAsc_total cmpNameAsc_trans _ sortProjectsV1_name_asc_eq⟩
  · exact ⟨sortProjects_name_desc_idem cfg,
      hV1map cmpNameDesc cmpNameDesc_total cmpNameDesc_trans _ sortProjectsV1_name_desc_eq⟩
  · exact ⟨sortProjects_group_asc_idem cfg hnd, hV1fix _ (by decide) (by decide) (by decide)⟩
  · exact ⟨sortProjects_group_desc_idem cfg hnd, hV1fix _ (by decide) (by decide) (by decide)⟩
  · refine ⟨?_, hV1map cmpColor cmpColor_total cmpColor_trans _ sortProjectsV1_color_eq⟩
    have hfix : sortProjects "color" cfg = cfg :=
      sortProjects_other_fixed "color" cfg rfl (by decide) (by decide)
    rw [hfix, hfix]

/-- C5 witness: idempotence at the `group-desc` criterion on a concrete
two-group catalog with distinct keys. -/
theorem sortProjects_idempotent_witness :
    sortProjects "group-desc"
        (sortProjects "group-desc"
          { projectsData := some [("b", []), ("a", [⟨"C", none⟩])] }) =
      sortProjects "group-desc" { projectsData := some [("b", []), ("a", [⟨"C", none⟩])] } ∧
      sortProjectsV1 "group-desc"
        (sortProjectsV1 "group-desc"
          { projectsData := some [("b", []), ("a", [⟨"C", none⟩])] }) =
      sortProjectsV1 "group-desc" { projectsData := some [("b", []), ("a", [⟨"C", none⟩])] } :=
  sortProjects_idempotent { projectsData := some [("b", []), ("a", [⟨"C", none⟩])] }
    "group-desc" (by decide)
    (fun m hm => by
      have h2 : [("b", []), ("a", [⟨"C", none⟩])] = m := Option.some.inj hm
      rw [← h2]
      decide)

/-! ### Name-descending after name-ascending (C6) -/

theorem jsSort_desc_of_asc (l : List ProjectInfo) (hl : (l.map ProjectInfo.name).Nodup) :
    jsSort cmpNameDesc (jsSort cmpNameAsc l) = (jsSort cmpNameAsc l).reverse := by
  apply jsSort_eq_reverse
  have hs : List.Sorted (fun a b => cmpNameAsc a b ≠ .gt) (jsSort cmpNameAsc l) :=
    jsSort_sorted cmpNameAsc cmpNameAsc_total cmpNameAsc_trans l
  have hnd2 : ((jsSort cmpNameAsc l).map ProjectInfo.name).Nodup :=
    (((jsSort_perm cmpNameAsc l).symm).map ProjectInfo.name).nodup hl
  have hpn : (jsSort cmpNameAsc l).Pairwise (fun a b => a.name ≠ b.name) :=
    List.pairwise_map.mp hnd2
  exact (hs.and hpn).imp (fun h => cmpStr_gt_of_ne_gt_of_ne h.1 h.2)

/-- First project of the C6 counterexample: name `x` with a color. -/
def cexProj1 : ProjectInfo := ⟨"x", some (Json.str "#ff0000")⟩

/-- Second project of the C6 counterexample: name `x` without a color. -/
def cexProj2 : ProjectInfo := ⟨"x", none⟩

/-- Catalog whose single group holds two distinct projects with equal names,
as an import can produce. -/
def cexCfg : ProjectConfig := { projectsData := some [("g", [cexProj1, cexProj2])] }

/-- C6 counterexample: with two equal-named projects the stable sorts keep
both orders identical, so the sequence after `name-asc` then `name-desc` is
not the reverse of the `name-asc` sequence. -/
theorem sortProjects_reverse_claim_false :
    (sortProjects "name-asc" cexCfg).projectsData = some [("g", [cexProj1, cexProj2])] ∧
      (sortProjects "name-desc" (sortProjects "name-asc" cexCfg)).projectsData =
        some [("g", [cexProj1, cexProj2])] ∧
      [cexProj1, cexProj2] ≠ [cexProj1, cexProj2].reverse := by
  refine ⟨rfl, rfl, ?_⟩
  intro h
  simp [cexProj1, cexProj2] at h

/-- C6 amended: when every group's project names are pairwise distinct (as on
any state produced by scanning, since folder names are unique), sorting
`name-asc` and then `name-desc` yields in every group exactly the reverse of
the `name-asc` sequence. -/
theorem sortProjects_asc_then_desc_reverses (cfg : ProjectConfig)
    (m : List (String × List ProjectInfo)) (hm : cfg.projectsData = some m)
    (hnames : ∀ p ∈ m, ((p.2).map ProjectInfo.name).Nodup) :
    ∀ m1, (sortProjects "name-asc" cfg).projectsData = some m1 →
      (sortProjects "name-desc" (sortProjects "name-asc" cfg)).projectsData =
        some (m1.map (fun p => (p.1, p.2.reverse))) := by
  intro m1 hm1
  rw [sortProjects_name_asc_eq cfg m hm] at hm1 ⊢
  have hm1' : m.map (fun p => (p.1, jsSort cmpNameAsc p.2)) = m1 := Option.some.inj hm1
  rw [sortProjects_name_desc_eq _ (m.map (fun p => (p.1, jsSort cmpNameAsc p.2))) rfl]
  show some _ = some (m1.map (fun p => (p.1, p.2.reverse)))
  rw [← hm1']
  rw [List.map_map, List.map_map]
  refine congrArg some (List.map_congr_left (fun p hp => ?_))
  have hpn := hnames p hp
  show (p.1, jsSort cmpNameDesc (jsSort cmpNameAsc p.2)) =
    (p.1, (jsSort cmpNameAsc p.2).reverse)
  rw [jsSort_desc_of_asc p.2 hpn]

/-- C6 amended witness: a two-project group with distinct names comes back
reversed. -/
theorem sortProjects_asc_then_desc_reverses_witness :
    (sortProjects "name-desc" (sortProjects "name-asc"
        { projectsData := some [("g", [⟨"b", none⟩, ⟨"a", none⟩])] })).projectsData =
      some (([("g", [(⟨"a", none⟩ : ProjectInfo), ⟨"b", none⟩])] :
          List (String × List ProjectInfo)).map (fun p => (p.1, p.2.reverse))) :=
  sortProjects_asc_then_desc_reverses
    { projectsData := some [("g", [⟨"b", none⟩, ⟨"a", none⟩])] }
    [("g", [⟨"b", none⟩, ⟨"a", none⟩])] rfl
    (by decide) [("g", [⟨"a", none⟩, ⟨"b", none⟩])] rfl

/-- C10: a criterion that does not contain `"group"` and is neither
`name-asc` nor `name-desc` leaves the catalog exactly unchanged; a criterion
containing `"group"` other than `group-desc` rebuilds the map with its keys
sorted ascending by the code's comparator (a sorted permutation of the old
keys), each key keeping its old value. -/
theorem sortProjects_other_criteria (cfg : ProjectConfig) (s : String) :
    (jsIncludes s "group" = false → s ≠ "name-asc" → s ≠ "name-desc" →
      sortProjects s cfg = cfg) ∧
    (jsIncludes s "group" = true → s ≠ "group-desc" →
      ∀ m, cfg.projectsData = some m →
        ∃ m', (sortProjects s cfg).projectsData = some m' ∧
          m'.map Prod.fst = jsSort cmpStr (m.map Prod.fst) ∧
          List.Sorted (fun a b => cmpStr a b ≠ .gt) (m'.map Prod.fst) ∧
          List.Perm (m'.map Prod.fst) (m.map Prod.fst) ∧
          (∀ k v, (k, v) ∈ m' → objGet m k = some v)) := by
  constructor
  · intro h1 h2 h3
    exact sortProjects_other_fixed s cfg h1 h2 h3
  · intro h1 h2 m hm
    have hshape : sortProjects s cfg =
        { cfg with projectsData := some (rebuildByKeys m (jsSort cmpStr (m.map Prod.fst))) } := by
      unfold sortProjects
      rw [hm]
      simp [h1, h2]
    have hkm : ∀ k ∈ jsSort cmpStr (m.map Prod.fst), k ∈ m.map Prod.fst :=
      fun k hk => (jsSort_perm cmpStr (m.map Prod.fst)).mem_iff.mp hk
    have hkeys : (rebuildByKeys m (jsSort cmpStr (m.map Prod.fst))).map Prod.fst =
        jsSort cmpStr (m.map Prod.fst) := rebuildByKeys_keys m _ hkm
    refine ⟨rebuildByKeys m (jsSort cmpStr (m.map Prod.fst)), by rw [hshape], hkeys, ?_, ?_, ?_⟩
    · rw [hkeys]
      exact jsSort_sorted cmpStr cmpStr_ne_gt_total cmpStr_ne_gt_trans _
    · rw [hkeys]
      exact jsSort_perm cmpStr _
    · intro k v hkv
      exact (mem_rebuildByKeys.mp hkv).2

/-- C10 witness: `color` leaves a concrete catalog untouched, and
`group-asc` on a two-group catalog produces sorted keys with the old
values. -/
theorem sortProjects_other_criteria_witness :
    sortProjects "color" { projectsData := some [("b", []), ("a", [⟨"C", none⟩])] } =
        { projectsData := some [("b", []), ("a", [⟨"C", none⟩])] } ∧
      ∃ m', (sortProjects "group-asc"
          { projectsData := some [("b", []), ("a", [⟨"C", none⟩])] }).projectsData = some m' ∧
        m'.map Prod.fst =
          jsSort cmpStr (([("b", []), ("a", [(⟨"C", none⟩ : ProjectInfo)])] :
            List (String × List ProjectInfo)).map Prod.fst) ∧
        List.Sorted (fun a b => cmpStr a b ≠ .gt) (m'.map Prod.fst) ∧
        List.Perm (m'.map Prod.fst)
          (([("b", []), ("a", [(⟨"C", none⟩ : ProjectInfo)])] :
            List (String × List ProjectInfo)).map Prod.fst) ∧
        (∀ k v, (k, v) ∈ m' →
          objGet ([("b", []), ("a", [(⟨"C", none⟩ : ProjectInfo)])] :
            List (String × List ProjectInfo)) k = some v) :=
  ⟨(sortProjects_other_criteria { projectsData := some [("b", []), ("a", [⟨"C", none⟩])] }
      "color").1 rfl (by decide) (by decide),
    (sortProjects_other_criteria { projectsData := some [("b", []), ("a", [⟨"C", none⟩])] }
      "group-asc").2 rfl (by decide) _ rfl⟩
